import Mathlib

/-!
Verification of the `InventoryManager` component of `src/inventory_system.py`.

The Python store keeps `self.stock_data`, a `dict` from item name (string) to
quantity (int).  We embed that dictionary as an association list
`List (String × Int)` together with the dictionary operations the source uses:
lookup with default (`dict.get`), membership (`in`), keyed assignment
(`d[k] = v`, which updates in place for an existing key and appends for a new
one, matching CPython insertion-order semantics), and deletion (`del d[k]`).

Python is dynamically typed and `add_item` / `remove_item` perform `isinstance`
checks, so arguments are embedded as a `PyVal` sum of the runtime value shapes
that matter here; a raised exception is embedded as returning the unchanged
state paired with `some` error, since every `raise` in the source happens
before any mutation of `self.stock_data`.

Persistence (`save_data` / `load_data`) is whole-file JSON.  The file system is
embedded as a `FileState`: the file may be missing (`FileNotFoundError` on
open), present but not parseable as JSON (`json.JSONDecodeError`), or present
with a parsed JSON document.  `json.dump`/`json.load` round-trip a
string-to-int dictionary exactly, so `save_data` stores the JSON document
denoting the stock and `load_data` returns the parsed document (which the
source assigns to `self.stock_data` without any validation).
-/

/-- Runtime value shapes relevant to the `isinstance` checks in the source. -/
inductive PyVal where
  | str (s : String)
  | int (n : Int)
  | pynone
deriving DecidableEq, Repr

/-- `isinstance(v, str)`. -/
def PyVal.isStr : PyVal → Bool
  | PyVal.str _ => true
  | _ => false

/-- `isinstance(v, int)`. -/
def PyVal.isInt : PyVal → Bool
  | PyVal.int _ => true
  | _ => false

/-- The exceptions the source raises from `add_item` / `remove_item`. -/
inductive PyErr where
  | typeError (msg : String)
  | valueError (msg : String)
deriving DecidableEq, Repr

/-- The in-memory stock: a Python dict from item name to quantity, embedded as
an insertion-ordered association list. -/
abbrev Stock := List (String × Int)

/-- `d.get(key)`: value at the first matching key, if any. -/
def dictGet : Stock → String → Option Int
  | [], _ => Option.none
  | (k, v) :: rest, key => if k = key then some v else dictGet rest key

/-- `d.get(key, dflt)`. -/
def dictGetD (st : Stock) (key : String) (dflt : Int) : Int :=
  (dictGet st key).getD dflt

/-- `key in d`. -/
def dictContains (st : Stock) (key : String) : Bool :=
  (dictGet st key).isSome

/-- `d[key] = v`: replace the value of an existing key in place, else append. -/
def dictSet : Stock → String → Int → Stock
  | [], key, v => [(key, v)]
  | (k, w) :: rest, key, v =>
      if k = key then (k, v) :: rest else (k, w) :: dictSet rest key v

/-- `del d[key]`: drop the (unique, for a dict) entry with this key. -/
def dictDel : Stock → String → Stock
  | [], _ => []
  | (k, w) :: rest, key =>
      if k = key then rest else (k, w) :: dictDel rest key

/-- A dict never holds the same key twice. -/
def StockNodup (st : Stock) : Prop := (st.map Prod.fst).Nodup

/-- The data-model invariant of the spec: every stored quantity is strictly
positive. -/
def StockPos (st : Stock) : Prop := ∀ p ∈ st, 0 < p.2

/-- `InventoryManager.add_item` (src/inventory_system.py lines 25-36):
validates `item` is a string, then `qty` is an integer, then `qty > 0`, and on
success sets `stock_data[item] = stock_data.get(item, 0) + qty`.  A raise
leaves the stock untouched. -/
def add_item (st : Stock) (item qty : PyVal) : Stock × Option PyErr :=
  match item with
  | PyVal.str i =>
    match qty with
    | PyVal.int q =>
        if q ≤ 0 then
          (st, some (PyErr.valueError "Quantity must be greater than zero."))
        else
          let current_qty := dictGetD st i 0
          (dictSet st i (current_qty + q), Option.none)
    | _ => (st, some (PyErr.typeError "Quantity must be an integer."))
  | _ => (st, some (PyErr.typeError "Item name must be a string."))

/-- `InventoryManager.remove_item` (src/inventory_system.py lines 38-57):
type-checks both arguments together; an absent item is a logged no-op; for a
present item the quantity is decremented, and the key is deleted when the new
value is `≤ 0`. -/
def remove_item (st : Stock) (item qty : PyVal) : Stock × Option PyErr :=
  match item, qty with
  | PyVal.str i, PyVal.int q =>
      if dictContains st i then
        let newVal := dictGetD st i 0 - q
        if newVal ≤ 0 then (dictDel st i, Option.none)
        else (dictSet st i newVal, Option.none)
      else
        (st, Option.none)
  | _, _ => (st, some (PyErr.typeError "Invalid item name or quantity type."))

/-- `InventoryManager.get_qty` (lines 59-61): `stock_data.get(item, 0)`. -/
def get_qty (st : Stock) (item : String) : Int :=
  dictGetD st item 0

/-- `InventoryManager.check_low_items` (lines 100-105): the comprehension
`[item for item, qty in stock_data.items() if qty < threshold]`. -/
def check_low_items (st : Stock) (threshold : Int) : List String :=
  (st.filter (fun p => p.2 < threshold)).map Prod.fst

/-- `check_low_items` at its default argument `threshold=5`. -/
def check_low_items_default (st : Stock) : List String :=
  check_low_items st 5

/-- JSON documents as produced by `json.load`. -/
inductive JsonVal where
  | jnull
  | jbool (b : Bool)
  | jint (n : Int)
  | jstr (s : String)
  | jobj (entries : List (String × JsonVal))

/-- State of the persistence file at `self.file_name`. -/
inductive FileState where
  | missing
  | malformed (raw : String)
  | valid (j : JsonVal)

/-- The JSON document denoting a stock dictionary, as `json.dump` writes it. -/
def stockToJson (st : Stock) : JsonVal :=
  JsonVal.jobj (st.map (fun p => (p.1, JsonVal.jint p.2)))

/-- `InventoryManager.save_data` (lines 85-92): overwrite the file with the
JSON serialization of the whole stock. -/
def save_data (st : Stock) : FileState :=
  FileState.valid (stockToJson st)

/-- `InventoryManager.load_data` (lines 63-83): the value `self.stock_data`
holds after the call.  `FileNotFoundError` and `json.JSONDecodeError` are both
caught and reset the stock to the empty dict; on success the parsed document is
assigned verbatim, with no validation. -/
def load_data (f : FileState) : JsonVal :=
  match f with
  | FileState.missing => JsonVal.jobj []
  | FileState.malformed _ => JsonVal.jobj []
  | FileState.valid j => j

/-- Abstraction function: read a loaded JSON document back as a stock mapping
(entries whose value is a JSON integer, in document order). -/
def stockOfJson : JsonVal → Stock
  | JsonVal.jobj entries =>
      entries.filterMap (fun p =>
        match p.2 with
        | JsonVal.jint n => some (p.1, n)
        | _ => Option.none)
  | _ => []

/-! ### Dictionary lemmas -/

lemma dictGet_mem {st : Stock} {k : String} {q : Int} (h : dictGet st k = some q) :
    (k, q) ∈ st := by
  induction st with
  | nil => simp [dictGet] at h
  | cons p rest ih =>
      obtain ⟨k0, v0⟩ := p
      by_cases hk : k0 = k
      · subst hk
        simp [dictGet] at h
        simp [h]
      · simp [dictGet, hk] at h
        exact List.mem_cons_of_mem _ (ih h)

lemma mem_dictGet {st : Stock} (hnd : StockNodup st) {k : String} {q : Int}
    (h : (k, q) ∈ st) : dictGet st k = some q := by
  induction st with
  | nil => simp at h
  | cons p rest ih =>
      obtain ⟨k0, v0⟩ := p
      rcases List.mem_cons.mp h with heq | hmem
      · cases heq
        simp [dictGet]
      · have hk : k0 ≠ k := by
          intro hkk
          subst hkk
          have : k0 ∈ rest.map Prod.fst := List.mem_map.mpr ⟨(k0, q), hmem, rfl⟩
          exact (List.nodup_cons.mp hnd).1 this
        have hnd' : StockNodup rest := (List.nodup_cons.mp hnd).2
        simp [dictGet, hk]
        exact ih hnd' hmem

lemma dictGet_eq_none {st : Stock} {k : String} (h : k ∉ st.map Prod.fst) :
    dictGet st k = Option.none := by
  induction st with
  | nil => rfl
  | cons p rest ih =>
      obtain ⟨k0, v0⟩ := p
      have hk : k0 ≠ k := by
        intro hkk
        exact h (by simp [hkk])
      have h' : k ∉ rest.map Prod.fst := by
        intro hm
        exact h (by simp [hm])
      simp [dictGet, hk, ih h']

lemma dictGet_dictSet_self (st : Stock) (k : String) (v : Int) :
    dictGet (dictSet st k v) k = some v := by
  induction st with
  | nil => simp [dictSet, dictGet]
  | cons p rest ih =>
      obtain ⟨k0, v0⟩ := p
      by_cases hk : k0 = k
      · simp [dictSet, hk, dictGet]
      · simp [dictSet, hk, dictGet, ih]

lemma dictGet_dictSet_ne (st : Stock) (k k' : String) (v : Int) (h : k' ≠ k) :
    dictGet (dictSet st k v) k' = dictGet st k' := by
  have hkk : ¬ k = k' := fun hh => h hh.symm
  induction st with
  | nil => simp [dictSet, dictGet, hkk]
  | cons p rest ih =>
      obtain ⟨k0, v0⟩ := p
      by_cases hk : k0 = k
      · subst hk
        simp [dictSet, dictGet, hkk]
      · simp only [dictSet, hk, if_false, dictGet]
        by_cases hk' : k0 = k'
        · simp [hk']
        · simp [hk', ih]

lemma dictGet_dictDel_self {st : Stock} (hnd : StockNodup st) (k : String) :
    dictGet (dictDel st k) k = Option.none := by
  induction st with
  | nil => rfl
  | cons p rest ih =>
      obtain ⟨k0, v0⟩ := p
      have hnd' : StockNodup rest := (List.nodup_cons.mp hnd).2
      by_cases hk : k0 = k
      · subst hk
        simp [dictDel]
        exact dictGet_eq_none (List.nodup_cons.mp hnd).1
      · simp [dictDel, hk, dictGet, ih hnd']

lemma dictGet_dictDel_ne (st : Stock) (k k' : String) (h : k' ≠ k) :
    dictGet (dictDel st k) k' = dictGet st k' := by
  have hkk : ¬ k = k' := fun hh => h hh.symm
  induction st with
  | nil => rfl
  | cons p rest ih =>
      obtain ⟨k0, v0⟩ := p
      by_cases hk : k0 = k
      · subst hk
        simp [dictDel, dictGet, hkk]
      · simp only [dictDel, hk, if_false, dictGet]
        by_cases hk' : k0 = k'
        · simp [hk']
        · simp [hk', ih]

lemma dictSet_dictSet (st : Stock) (k : String) (x y : Int) :
    dictSet (dictSet st k x) k y = dictSet st k y := by
  induction st with
  | nil => simp [dictSet]
  | cons p rest ih =>
      obtain ⟨k0, v0⟩ := p
      by_cases hk : k0 = k
      · simp [dictSet, hk]
      · simp [dictSet, hk, ih]

lemma mem_dictSet {st : Stock} {k : String} {v : Int} {p : String × Int}
    (h : p ∈ dictSet st k v) : p ∈ st ∨ p = (k, v) := by
  induction st with
  | nil => simp [dictSet] at h; simp [h]
  | cons q rest ih =>
      obtain ⟨k0, v0⟩ := q
      by_cases hk : k0 = k
      · subst hk
        simp [dictSet] at h
        rcases h with h | h
        · right; simp [h]
        · left; exact List.mem_cons_of_mem _ h
      · simp [dictSet, hk] at h
        rcases h with h | h
        · left; simp [h]
        · rcases ih h with h1 | h1
          · left; exact List.mem_cons_of_mem _ h1
          · right; exact h1

lemma mem_dictDel {st : Stock} {k : String} {p : String × Int}
    (h : p ∈ dictDel st k) : p ∈ st := by
  induction st with
  | nil => simp [dictDel] at h
  | cons q rest ih =>
      obtain ⟨k0, v0⟩ := q
      by_cases hk : k0 = k
      · subst hk
        simp [dictDel] at h
        exact List.mem_cons_of_mem _ h
      · simp [dictDel, hk] at h
        rcases h with h | h
        · simp [h]
        · exact List.mem_cons_of_mem _ (ih h)

/-! ### Invariant preservation helpers -/

lemma StockPos_add (st : Stock) (item qty : PyVal) (h : StockPos st) :
    StockPos (add_item st item qty).1 := by
  match item with
  | PyVal.str i =>
    match qty with
    | PyVal.int q =>
        by_cases hq : q ≤ 0
        · simpa [add_item, hq] using h
        · have hqpos : 0 < q := lt_of_not_ge hq
          simp only [add_item, hq, if_false]
          intro p hp
          rcases mem_dictSet hp with hmem | heq
          · exact h p hmem
          · subst heq
            have hval : 0 < dictGetD st i 0 + q := by
              unfold dictGetD
              cases hget : dictGet st i with
              | none => simpa using hqpos
              | some v =>
                  have hv : 0 < v := h (i, v) (dictGet_mem hget)
                  simp only [Option.getD_some]
                  positivity
            simpa using hval
    | PyVal.str _ => simpa [add_item] using h
    | PyVal.pynone => simpa [add_item] using h
  | PyVal.int _ => simpa [add_item] using h
  | PyVal.pynone => simpa [add_item] using h

lemma StockPos_remove (st : Stock) (item qty : PyVal) (h : StockPos st) :
    StockPos (remove_item st item qty).1 := by
  match item, qty with
  | PyVal.str i, PyVal.int q =>
      by_cases hc : dictContains st i
      · by_cases hle : dictGetD st i 0 - q ≤ 0
        · simp only [remove_item, hc, if_true, hle]
          intro p hp
          exact h p (mem_dictDel hp)
        · simp only [remove_item, hc, if_true, hle, if_false]
          intro p hp
          rcases mem_dictSet hp with hmem | heq
          · exact h p hmem
          · subst heq
            simpa using lt_of_not_ge hle
      · simpa [remove_item, hc] using h
  | PyVal.str _, PyVal.str _ => simpa [remove_item] using h
  | PyVal.str _, PyVal.pynone => simpa [remove_item] using h
  | PyVal.int _, _ => simpa [remove_item] using h
  | PyVal.pynone, _ => simpa [remove_item] using h

/-! ### Claim theorems -/

/-- C3: for an item present with quantity `q` and any integer `qty`,
`remove_item` deletes the key entirely when `q - qty ≤ 0` and otherwise stores
`q - qty`; every other entry of the stock is unchanged, and no error is
raised. -/
theorem remove_item_present_spec (st : Stock) (item : String) (qty q : Int)
    (hnd : StockNodup st) (hget : dictGet st item = some q) :
    (q - qty ≤ 0 →
      remove_item st (PyVal.str item) (PyVal.int qty) = (dictDel st item, Option.none) ∧
      dictGet (remove_item st (PyVal.str item) (PyVal.int qty)).1 item = Option.none) ∧
    (0 < q - qty →
      remove_item st (PyVal.str item) (PyVal.int qty) = (dictSet st item (q - qty), Option.none) ∧
      dictGet (remove_item st (PyVal.str item) (PyVal.int qty)).1 item = some (q - qty)) ∧
    (∀ k, k ≠ item →
      dictGet (remove_item st (PyVal.str item) (PyVal.int qty)).1 k = dictGet st k) := by
  have hc : dictContains st item = true := by
    simp [dictContains, hget]
  have hgd : dictGetD st item 0 = q := by
    simp [dictGetD, hget]
  refine ⟨?_, ?_, ?_⟩
  · intro hle
    have heq : remove_item st (PyVal.str item) (PyVal.int qty) = (dictDel st item, Option.none) := by
      simp [remove_item, hc, hgd, hle]
    refine ⟨heq, ?_⟩
    rw [heq]
    exact dictGet_dictDel_self hnd item
  · intro hpos
    have hle : ¬ dictGetD st item 0 - qty ≤ 0 := by
      rw [hgd]
      exact not_le_of_gt hpos
    have heq : remove_item st (PyVal.str item) (PyVal.int qty)
        = (dictSet st item (dictGetD st item 0 - qty), Option.none) := by
      simp [remove_item, hc, hle]
    rw [hgd] at heq
    refine ⟨heq, ?_⟩
    rw [heq]
    exact dictGet_dictSet_self st item (q - qty)
  · intro k hk
    by_cases hle : dictGetD st item 0 - qty ≤ 0
    · simp only [remove_item, hc, if_true, hle]
      exact dictGet_dictDel_ne st item k hk
    · simp only [remove_item, hc, if_true, hle, if_false]
      exact dictGet_dictSet_ne st item k _ hk

/-- C3 witness: removing 5 of 3 apples deletes the key, leaving the other
entry intact. -/
theorem remove_item_present_spec_witness :
    remove_item [("a", 3), ("b", 7)] (PyVal.str "a") (PyVal.int 5)
      = (dictDel [("a", 3), ("b", 7)] "a", Option.none) ∧
    dictGet (remove_item [("a", 3), ("b", 7)] (PyVal.str "a") (PyVal.int 5)).1 "b"
      = dictGet [("a", 3), ("b", 7)] "b" := by
  have h := remove_item_present_spec [("a", 3), ("b", 7)] "a" 5 3
    (by unfold StockNodup; decide) (by decide)
  exact ⟨(h.1 (by decide)).1, h.2.2 "b" (by decide)⟩

/-- C4: after a valid `add_item`, `get_qty` reports exactly the prior quantity
(0 when the item was absent) plus `qty`. -/
theorem add_then_get_qty (st : Stock) (item : String) (qty : Int) (hq : 0 < qty) :
    get_qty (add_item st (PyVal.str item) (PyVal.int qty)).1 item
      = get_qty st item + qty := by
  have hle : ¬ qty ≤ 0 := not_le_of_gt hq
  simp only [add_item, hle, if_false, get_qty]
  unfold dictGetD
  rw [dictGet_dictSet_self]
  rfl

/-- C4 witness: adding 2 bananas to a stock of 7 yields 9. -/
theorem add_then_get_qty_witness :
    get_qty (add_item [("banana", 7)] (PyVal.str "banana") (PyVal.int 2)).1 "banana"
      = get_qty [("banana", 7)] "banana" + 2 :=
  add_then_get_qty [("banana", 7)] "banana" 2 (by decide)

/-- C5: `add_item` validates in order — non-string item raises `TypeError`
first, then non-integer quantity raises `TypeError`, then a non-positive
integer quantity raises `ValueError` — and every failing call returns the
stock completely unchanged. -/
theorem add_item_validation (st : Stock) (item qty : PyVal) :
    (PyVal.isStr item = false →
      add_item st item qty = (st, some (PyErr.typeError "Item name must be a string."))) ∧
    (PyVal.isStr item = true → PyVal.isInt qty = false →
      add_item st item qty = (st, some (PyErr.typeError "Quantity must be an integer."))) ∧
    (∀ i q, item = PyVal.str i → qty = PyVal.int q → q ≤ 0 →
      add_item st item qty = (st, some (PyErr.valueError "Quantity must be greater than zero."))) := by
  refine ⟨?_, ?_, ?_⟩
  · intro hs
    match item with
    | PyVal.str _ => simp [PyVal.isStr] at hs
    | PyVal.int _ => rfl
    | PyVal.pynone => rfl
  · intro hs hi
    match item with
    | PyVal.int _ => simp [PyVal.isStr] at hs
    | PyVal.pynone => simp [PyVal.isStr] at hs
    | PyVal.str _ =>
      match qty with
      | PyVal.int _ => simp [PyVal.isInt] at hi
      | PyVal.str _ => rfl
      | PyVal.pynone => rfl
  · intro i q hitem hqty hq
    subst hitem
    subst hqty
    simp [add_item, hq]

/-- C5 witness: the three validation failures at concrete arguments, each
leaving the empty stock unchanged. -/
theorem add_item_validation_witness :
    add_item [] (PyVal.int 3) (PyVal.int 1)
      = ([], some (PyErr.typeError "Item name must be a string.")) ∧
    add_item [] (PyVal.str "a") PyVal.pynone
      = ([], some (PyErr.typeError "Quantity must be an integer.")) ∧
    add_item [] (PyVal.str "a") (PyVal.int (-1))
      = ([], some (PyErr.valueError "Quantity must be greater than zero.")) :=
  ⟨(add_item_validation [] (PyVal.int 3) (PyVal.int 1)).1 rfl,
   (add_item_validation [] (PyVal.str "a") PyVal.pynone).2.1 rfl rfl,
   (add_item_validation [] (PyVal.str "a") (PyVal.int (-1))).2.2 "a" (-1) rfl rfl (by decide)⟩

/-- C6 counterexample: the claim says `remove(item, qty)` raises no exception
for an absent item and *every* `qty` whatsoever, but a non-integer `qty` (here
a string) trips the `isinstance` guard and raises `TypeError` even though
`"ghost"` is absent. -/
theorem remove_item_absent_cex :
    (remove_item [] (PyVal.str "ghost") (PyVal.str "x")).2
      = some (PyErr.typeError "Invalid item name or quantity type.") := by
  rfl

/-- C6 (amended): for an absent item and every *integer* `qty` (zero and
negative included), `remove_item` leaves the stock unchanged and raises no
exception. -/
theorem remove_item_absent_noop (st : Stock) (item : String) (qty : Int)
    (h : dictContains st item = false) :
    remove_item st (PyVal.str item) (PyVal.int qty) = (st, Option.none) := by
  simp [remove_item, h]

/-- C6 witness: removing a negative amount of an absent item is a no-op. -/
theorem remove_item_absent_noop_witness :
    remove_item [("a", 1)] (PyVal.str "ghost") (PyVal.int (-4)) = ([("a", 1)], Option.none) :=
  remove_item_absent_noop [("a", 1)] "ghost" (-4) (by decide)

/-- C9: adding `a` then `b` to the same item produces exactly the same result
(stock and absence of error) as adding `a + b` once, for positive `a`, `b`. -/
theorem add_add_eq_add_sum (st : Stock) (item : String) (a b : Int)
    (ha : 0 < a) (hb : 0 < b) :
    add_item (add_item st (PyVal.str item) (PyVal.int a)).1 (PyVal.str item) (PyVal.int b)
      = add_item st (PyVal.str item) (PyVal.int (a + b)) := by
  have hna : ¬ a ≤ 0 := not_le_of_gt ha
  have hnb : ¬ b ≤ 0 := not_le_of_gt hb
  have hnab : ¬ a + b ≤ 0 := not_le_of_gt (by positivity)
  simp only [add_item, hna, hnb, hnab, if_false]
  have hget : dictGetD (dictSet st item (dictGetD st item 0 + a)) item 0
      = dictGetD st item 0 + a := by
    unfold dictGetD
    rw [dictGet_dictSet_self]
    rfl
  rw [hget, dictSet_dictSet, add_assoc]

/-- C9 witness: add 1 then 2 equals add 3 on the empty stock. -/
theorem add_add_eq_add_sum_witness :
    add_item (add_item [] (PyVal.str "a") (PyVal.int 1)).1 (PyVal.str "a") (PyVal.int 2)
      = add_item [] (PyVal.str "a") (PyVal.int (1 + 2)) :=
  add_add_eq_add_sum [] "a" 1 2 (by decide) (by decide)

/-- Serializing a stock dictionary and reading the document back yields the
same dictionary (the `json.dump` / `json.load` round trip on a string-to-int
object). -/
lemma stockOfJson_stockToJson (st : Stock) : stockOfJson (stockToJson st) = st := by
  induction st with
  | nil => rfl
  | cons p rest ih =>
      simp only [stockToJson, stockOfJson, List.map_cons, List.filterMap_cons] at ih ⊢
      simp [ih]

/-- C2: `save_data` followed by `load_data` on a fresh store reproduces
exactly the stock that was saved, whenever all saved quantities are
positive. -/
theorem save_load_roundtrip (st : Stock) (h : StockPos st) :
    stockOfJson (load_data (save_data st)) = st :=
  stockOfJson_stockToJson st

/-- C2 witness: the round trip at a concrete two-item stock. -/
theorem save_load_roundtrip_witness :
    stockOfJson (load_data (save_data [("apple", 7), ("banana", 2)]))
      = [("apple", 7), ("banana", 2)] :=
  save_load_roundtrip [("apple", 7), ("banana", 2)] (by unfold StockPos; decide)

/-- C7: `load_data` is a total function (no error is ever surfaced); a missing
file and an unparseable file both reset the in-memory stock to the empty
mapping. -/
theorem load_data_failure_resets_empty :
    load_data FileState.missing = JsonVal.jobj [] ∧
    (∀ s : String, load_data (FileState.malformed s) = JsonVal.jobj []) ∧
    stockOfJson (load_data FileState.missing) = ([] : Stock) ∧
    stockOfJson (load_data (FileState.malformed "not json")) = ([] : Stock) :=
  ⟨rfl, fun _ => rfl, rfl, rfl⟩

/-- C8: `check_low_items` returns, in stock-iteration order (a sublist of the
key sequence), exactly the items whose quantity is strictly below the
threshold; the empty stock yields `[]`, and at the default threshold 5 the
stock `{"apple": 7, "banana": 2}` yields exactly `["banana"]`.  (The function
is pure, so the store is never mutated.) -/
theorem check_low_items_spec (st : Stock) (t : Int) (hnd : StockNodup st) :
    List.Sublist (check_low_items st t) (st.map Prod.fst) ∧
    (∀ k, k ∈ check_low_items st t ↔ ∃ q, dictGet st k = some q ∧ q < t) ∧
    check_low_items ([] : Stock) t = [] ∧
    check_low_items_default [("apple", 7), ("banana", 2)] = ["banana"] := by
  refine ⟨?_, ?_, rfl, by decide⟩
  · exact List.Sublist.map Prod.fst (List.filter_sublist st)
  · intro k
    constructor
    · intro hk
      simp only [check_low_items, List.mem_map] at hk
      obtain ⟨p, hp, hpk⟩ := hk
      obtain ⟨k1, q⟩ := p
      obtain rfl : k1 = k := hpk
      rw [List.mem_filter] at hp
      refine ⟨q, mem_dictGet hnd hp.1, by simpa using hp.2⟩
    · rintro ⟨q, hget, hlt⟩
      have hmem : (k, q) ∈ st := dictGet_mem hget
      simp only [check_low_items, List.mem_map]
      exact ⟨(k, q), List.mem_filter.mpr ⟨hmem, by simpa using hlt⟩, rfl⟩

/-- C8 witness: the documented example at the default threshold. -/
theorem check_low_items_spec_witness :
    check_low_items_default [("apple", 7), ("banana", 2)] = ["banana"] :=
  (check_low_items_spec [("apple", 7), ("banana", 2)] 5
    (by unfold StockNodup; decide)).2.2.2

/-- The states reachable from the empty stock by any sequence of `add_item`
and `remove_item` calls (with arbitrary, possibly invalid, arguments). -/
inductive Reach : Stock → Prop where
  | init : Reach []
  | addStep (st : Stock) (item qty : PyVal) : Reach st → Reach (add_item st item qty).1
  | removeStep (st : Stock) (item qty : PyVal) : Reach st → Reach (remove_item st item qty).1

lemma StockPos_of_Reach {st : Stock} (h : Reach st) : StockPos st := by
  induction h with
  | init => intro p hp; simp at hp
  | addStep st item qty _ ih => exact StockPos_add st item qty ih
  | removeStep st item qty _ ih => exact StockPos_remove st item qty ih

/-- C10: on every state reachable from the empty stock via `add_item` /
`remove_item`, `get_qty` is never negative: it returns 0 for an absent item
and a strictly positive value for a present one. -/
theorem get_qty_nonneg_reachable (st : Stock) (h : Reach st) (item : String) :
    0 ≤ get_qty st item ∧
    (dictContains st item = false → get_qty st item = 0) ∧
    (dictContains st item = true → 0 < get_qty st item) := by
  have hpos := StockPos_of_Reach h
  unfold get_qty dictGetD
  cases hget : dictGet st item with
  | none =>
      refine ⟨by simp, fun _ => by simp, fun hc => ?_⟩
      unfold dictContains at hc
      rw [hget] at hc
      simp at hc
  | some v =>
      have hv : 0 < v := hpos (item, v) (dictGet_mem hget)
      refine ⟨by simpa using le_of_lt hv, fun hc => ?_, fun _ => by simpa using hv⟩
      unfold dictContains at hc
      rw [hget] at hc
      simp at hc

/-- C10 witness: the reachable stock `{"a": 2}` reports a positive quantity. -/
theorem get_qty_nonneg_reachable_witness :
    0 ≤ get_qty [("a", 2)] "a" ∧ 0 < get_qty [("a", 2)] "a" := by
  have e : (add_item [] (PyVal.str "a") (PyVal.int 2)).1 = [("a", 2)] := by decide
  have hr : Reach [("a", 2)] := by
    have h0 := Reach.addStep [] (PyVal.str "a") (PyVal.int 2) Reach.init
    rwa [e] at h0
  have h := get_qty_nonneg_reachable [("a", 2)] hr "a"
  exact ⟨h.1, h.2.2 (by decide)⟩

/-- C1 counterexample: `load_data` does not preserve the positivity
invariant — loading a well-formed JSON object that stores quantity 0 puts a
non-positive quantity into the stock (the source assigns the parsed document
without validation). -/
theorem load_invariant_cex :
    ¬ StockPos (stockOfJson (load_data
        (FileState.valid (JsonVal.jobj [("a", JsonVal.jint 0)])))) := by
  unfold StockPos
  decide

/-- C1 (amended): `add_item` and `remove_item` preserve the strict-positivity
invariant from any state satisfying it, and `load_data` re-establishes it when
the file is missing, malformed, or was produced by `save_data`; but a
parseable file containing non-positive quantities is loaded verbatim (see the
counterexample). -/
theorem inventory_invariant_preserved (st : Stock) (item qty : PyVal) (h : StockPos st) :
    StockPos (add_item st item qty).1 ∧
    StockPos (remove_item st item qty).1 ∧
    StockPos (stockOfJson (load_data FileState.missing)) ∧
    (∀ s, StockPos (stockOfJson (load_data (FileState.malformed s)))) ∧
    StockPos (stockOfJson (load_data (save_data st))) := by
  refine ⟨StockPos_add st item qty h, StockPos_remove st item qty h, ?_, ?_, ?_⟩
  · intro p hp
    simp [load_data, stockOfJson] at hp
  · intro s p hp
    simp [load_data, stockOfJson] at hp
  · have e : stockOfJson (load_data (save_data st)) = st := stockOfJson_stockToJson st
    rw [e]
    exact h

/-- C1 witness: preservation at a concrete invariant-satisfying stock. -/
theorem inventory_invariant_preserved_witness :
    StockPos (add_item [("a", 1)] (PyVal.str "a") (PyVal.int 2)).1 ∧
    StockPos (remove_item [("a", 1)] (PyVal.str "a") (PyVal.int 2)).1 := by
  have h := inventory_invariant_preserved [("a", 1)] (PyVal.str "a") (PyVal.int 2)
    (by unfold StockPos; decide)
  exact ⟨h.1, h.2.1⟩
